import Mathlib

/-!
Verification of the s3odm client (src/s3odm.ts): a shallow embedding of the
SigV4 request signer (createCertifier), the transport executor (S3ODM.execute)
and the facade operations (findById, exists, insert, deleteById, deleteByIds,
listIds), together with theorems settling the frozen claims about them.

JavaScript strings are modelled as Lean String values; byte buffers
(ArrayBuffer / Uint8Array) as List Nat with entries below 256; the ambient
clock (new Date) is an explicit datetime parameter; the WebCrypto SHA-256 and
HMAC primitives are parameters of the embedding (a Crypto record), since they
are platform code, not part of the repository.
-/

/-- Character is in the set kept verbatim by the JS encodeURIComponent
builtin: letters, digits, and - _ . ! ~ * ( ) and the apostrophe. -/
def uriUnreserved (c : Char) : Bool :=
  ('A' ≤ c && c ≤ 'Z') || ('a' ≤ c && c ≤ 'z') || ('0' ≤ c && c ≤ '9') ||
  c = '-' || c = '_' || c = '.' || c = '!' || c = '~' || c = '*' ||
  c = '\'' || c = '(' || c = ')'

/-- Lowercase hex digit for a value below 16, as produced by the JS
Number.toString(16) builtin. -/
def hexDigit (n : Nat) : Char :=
  if n < 10 then Char.ofNat (48 + n) else Char.ofNat (87 + n)

/-- Uppercase hex digit for a value below 16. -/
def hexDigitU (n : Nat) : Char :=
  if n < 10 then Char.ofNat (48 + n) else Char.ofNat (55 + n)

/-- Fuel-driven digit expansion behind the hex printers; the fuel bounds the
digit count and is always sufficient at the chosen call sites. -/
def natHexAux (digit : Nat → Char) : Nat → Nat → List Char
  | 0, _ => []
  | fuel + 1, n =>
    if n < 16 then [digit n]
    else natHexAux digit fuel (n / 16) ++ [digit (n % 16)]

/-- Lowercase hex digits of a natural number, most significant first:
the JS x.toString(16) builtin. -/
def natHex (n : Nat) : List Char := natHexAux hexDigit (n + 1) n

/-- Uppercase hex digits of a natural number, most significant first:
the JS x.toString(16).toUpperCase() combination. -/
def natHexU (n : Nat) : List Char := natHexAux hexDigitU (n + 1) n

/-- UTF-8 bytes of one character (the TextEncoder builtin on a one-character
string). -/
def utf8Bytes (c : Char) : List Nat :=
  let n := c.toNat
  if n < 128 then [n]
  else if n < 2048 then [192 + n / 64, 128 + n % 64]
  else if n < 65536 then [224 + n / 4096, 128 + (n / 64) % 64, 128 + n % 64]
  else [240 + n / 262144, 128 + (n / 4096) % 64, 128 + (n / 64) % 64, 128 + n % 64]

/-- UTF-8 bytes of a string: the TextEncoder.encode builtin used by the
certifier for every hash and HMAC input. -/
def strBytes (s : String) : List Nat :=
  s.data.foldr (fun c acc => utf8Bytes c ++ acc) []

/-- Model of the certifier helper buff2hex for one byte: the JS expression
(quoting the source) `('0' + x.toString(16)).slice(-2)` — prepend a zero and
keep the last two characters. -/
def byteHex (b : Nat) : List Char :=
  let s := '0' :: natHex b
  s.drop (s.length - 2)

/-- Helper buff2hex of createCertifier (src/s3odm.ts lines 292-296): hex dump
of a byte buffer, two lowercase digits per byte. -/
def buff2hex (bytes : List Nat) : String :=
  ⟨bytes.foldr (fun b acc => byteHex b ++ acc) []⟩

/-- Percent-escape of one byte as produced by encodeURIComponent: a percent
sign and exactly two uppercase hex digits. -/
def pctByte (b : Nat) : List Char :=
  let h := natHexU b
  '%' :: (if h.length = 1 then '0' :: h else h)

/-- Model of the JS encodeURIComponent builtin: unreserved characters kept,
every other character replaced by the percent-escapes of its UTF-8 bytes. -/
def encodeURIComponent (s : String) : String :=
  ⟨s.data.foldr
    (fun c acc =>
      (if uriUnreserved c then [c]
       else (utf8Bytes c).foldr (fun b a2 => pctByte b ++ a2) []) ++ acc) []⟩

/-- Replacement for one character under the encodeRFC3986 helper of
createCertifier (src/s3odm.ts lines 305-310): the five characters left alone
by encodeURIComponent but reserved by RFC 3986 become percent-escapes with
uppercase hex, every other character is kept. -/
def rfc3986Char (c : Char) : List Char :=
  if c = '!' || c = '\'' || c = '(' || c = ')' || c = '*'
  then '%' :: natHexU c.toNat
  else [c]

/-- Helper encodeRFC3986 of createCertifier (src/s3odm.ts lines 305-310). -/
def encodeRFC3986 (s : String) : String :=
  ⟨s.data.foldr (fun c acc => rfc3986Char c ++ acc) []⟩

/-- Value of a hex digit character, accepting both cases. -/
def hexVal (c : Char) : Option Nat :=
  if '0' ≤ c && c ≤ '9' then some (c.toNat - 48)
  else if 'A' ≤ c && c ≤ 'F' then some (c.toNat - 55)
  else if 'a' ≤ c && c ≤ 'f' then some (c.toNat - 87)
  else none

/-- Whether a byte is a UTF-8 continuation byte. -/
def utf8Cont (b : Nat) : Bool := 128 ≤ b && b < 192

/-- UTF-8 decoding of a byte list, failing on malformed sequences: models the
decoding step of the JS decodeURIComponent builtin. -/
def utf8Decode : List Nat → Option (List Char)
  | [] => some []
  | b :: rest =>
    if b < 128 then (utf8Decode rest).map (fun cs => Char.ofNat b :: cs)
    else if b < 224 then
      match rest with
      | b2 :: rest2 =>
        if 194 ≤ b && utf8Cont b2 then
          (utf8Decode rest2).map (fun cs => Char.ofNat ((b - 192) * 64 + (b2 - 128)) :: cs)
        else none
      | _ => none
    else if b < 240 then
      match rest with
      | b2 :: b3 :: rest3 =>
        if utf8Cont b2 && utf8Cont b3 then
          (utf8Decode rest3).map
            (fun cs => Char.ofNat ((b - 224) * 4096 + (b2 - 128) * 64 + (b3 - 128)) :: cs)
        else none
      | _ => none
    else if b < 245 then
      match rest with
      | b2 :: b3 :: b4 :: rest4 =>
        if utf8Cont b2 && utf8Cont b3 && utf8Cont b4 then
          (utf8Decode rest4).map
            (fun cs => Char.ofNat
              ((b - 240) * 262144 + (b2 - 128) * 4096 + (b3 - 128) * 64 + (b4 - 128)) :: cs)
        else none
      | _ => none
    else none

/-- Percent-unescaping pass of decodeURIComponent: every %XX pair becomes a
byte, every other character contributes its UTF-8 bytes; malformed escapes
fail. -/
def pctToBytes : List Char → Option (List Nat)
  | [] => some []
  | '%' :: c1 :: c2 :: rest =>
    match hexVal c1, hexVal c2 with
    | some h1, some h2 => (pctToBytes rest).map (fun bs => (h1 * 16 + h2) :: bs)
    | _, _ => none
  | '%' :: _ => none
  | c :: rest => (pctToBytes rest).map (fun bs => utf8Bytes c ++ bs)

/-- Model of the JS decodeURIComponent builtin; none models the URIError the
certifier catches at src/s3odm.ts lines 372-376. -/
def decodeURIComponent (s : String) : Option String :=
  (pctToBytes s.data).bind (fun bs => (utf8Decode bs).map (fun cs => ⟨cs⟩))

/-- The regex replacement of plus signs by spaces applied to the path before
decoding (src/s3odm.ts line 373). -/
def plusToSpace (s : String) : String :=
  ⟨s.data.map (fun c => if c = '+' then ' ' else c)⟩

/-- The regex replacement turning the escaped slash %2F back into a literal
slash after re-encoding the path (src/s3odm.ts line 378). -/
def unescapeSlashAux : List Char → List Char
  | '%' :: '2' :: 'F' :: rest => '/' :: unescapeSlashAux rest
  | c :: rest => c :: unescapeSlashAux rest
  | [] => []

/-- String wrapper for the %2F unescaping replacement. -/
def unescapeSlash (s : String) : String := ⟨unescapeSlashAux s.data⟩

/-- Whitespace class of the JS regex \s restricted to the ASCII characters
that occur in header values. -/
def jsWs (c : Char) : Bool :=
  c = ' ' || c = '\t' || c = '\n' || c = '\r' || c.toNat = 11 || c.toNat = 12

/-- Run-collapsing pass behind the header value normalization regex
replace(\s+, one space); the flag records whether the previous character was
whitespace. -/
def collapseWsAux : Bool → List Char → List Char
  | _, [] => []
  | prev, c :: rest =>
    if jsWs c then
      (if prev then collapseWsAux true rest else ' ' :: collapseWsAux true rest)
    else c :: collapseWsAux false rest

/-- Header value normalization of the certifier (src/s3odm.ts line 361):
every whitespace run becomes a single space. -/
def collapseWs (s : String) : String := ⟨collapseWsAux false s.data⟩

/-- First characters of a string: the JS slice(0, n) on datetime strings. -/
def strTakeChars (s : String) (n : Nat) : String := ⟨s.data.take n⟩

/-- Suffix of a string from a character position: the JS substring(n). -/
def strDropChars (s : String) (n : Nat) : String := ⟨s.data.drop n⟩

/-! Header set model. The certifier manipulates a node-fetch Headers object;
header names are normalized to lowercase, get and has and delete match
case-insensitively, set replaces the existing entry in place or appends a new
one at the end. -/

/-- ASCII lowercase of one character, as the Headers name normalization and
the JS toLowerCase builtin act on header names. -/
def lowerChar (c : Char) : Char :=
  if 'A' ≤ c && c ≤ 'Z' then Char.ofNat (c.toNat + 32) else c

/-- Header name normalization done by the Headers class. -/
def lowerName (s : String) : String := ⟨s.data.map lowerChar⟩

/-- Header set: association list with lowercase names. -/
abbrev HeadersT := List (String × String)

/-- Headers.get: value of the first entry with the given name, none when the
header is absent. -/
def hGet (h : HeadersT) (n : String) : Option String :=
  (h.find? (fun p => p.1 = lowerName n)).map Prod.snd

/-- Headers.has. -/
def hHas (h : HeadersT) (n : String) : Bool :=
  h.any (fun p => p.1 = lowerName n)

/-- Headers.delete. -/
def hDelete (h : HeadersT) (n : String) : HeadersT :=
  h.filter (fun p => p.1 ≠ lowerName n)

/-- Headers.set: replace the first entry with the given name, or append the
entry at the end when the name is absent. -/
def hSet : HeadersT → String → String → HeadersT
  | [], n, v => [(lowerName n, v)]
  | (k, w) :: rest, n, v =>
    if k = lowerName n then (k, v) :: rest else (k, w) :: hSet rest n v

/-- Headers.keys. -/
def hKeys (h : HeadersT) : List String := h.map Prod.fst

/-! Crypto primitives. The WebCrypto digest and HMAC-SHA256 sign operations
are platform builtins; the embedding abstracts them as a record over byte
lists, so every theorem about the certifier holds for the real primitives. -/

/-- WebCrypto primitives used by createCertifier: an HMAC keyed by a byte
buffer over a byte message, and a digest over a byte buffer. -/
structure Crypto where
  hmacB : List Nat → List Nat → List Nat
  sha256B : List Nat → List Nat

/-- Helper createHMAC of createCertifier (src/s3odm.ts lines 312-326): a
string key is UTF-8 encoded before keying, the string message is UTF-8
encoded before signing; the embedding passes keys as bytes, with string keys
already encoded by strBytes at the call site. -/
def createHMAC (c : Crypto) (key : List Nat) (msg : String) : List Nat :=
  c.hmacB key (strBytes msg)

/-! Signing key cache (src/s3odm.ts lines 279, 397-408): a JS Map from the
joined cache key to the derived HMAC key. Map.get returns the entry or
undefined, Map.set replaces in place or appends. -/

/-- Signing key cache content. -/
abbrev SignCache := List (String × List Nat)

/-- Map.get. -/
def mapGet (m : SignCache) (k : String) : Option (List Nat) :=
  (m.find? (fun p => p.1 = k)).map Prod.snd

/-- Map.set. -/
def mapSet : SignCache → String → List Nat → SignCache
  | [], k, v => [(k, v)]
  | (k1, v1) :: rest, k, v =>
    if k1 = k then (k1, v) :: rest else (k1, v1) :: mapSet rest k v

/-- Cache key of the signing key cache (src/s3odm.ts line 397): the JS
Array.join() of secret key, date stamp, region and service with the default
comma separator. -/
def cacheKeyFor (secretKey datestr region : String) : String :=
  String.intercalate "," [secretKey, datestr, region, "s3"]

/-- Derivation chain of the SigV4 signing key as performed on a cache miss
(src/s3odm.ts lines 402-405): four nested HMAC steps over the AWS4-prefixed
secret, the date stamp, the region, the service and the terminator. -/
def deriveKey (c : Crypto) (secretKey datestr region : String) : List Nat :=
  createHMAC c
    (createHMAC c
      (createHMAC c
        (createHMAC c (strBytes ("AWS4" ++ secretKey)) datestr)
        region)
      "s3")
    "aws4_request"

/-- Result of a signing key lookup: the key, the cache afterwards, and how
many of the four HMAC derivations were executed. -/
structure SKRes where
  key : List Nat
  cache : SignCache
  derivs : Nat
deriving DecidableEq

/-- Signing key acquisition of the certifier (src/s3odm.ts lines 397-408):
return the cached key when present, otherwise run the four HMAC derivations
and store the result. -/
def getSigningKey (c : Crypto) (secretKey datestr region : String)
    (cache : SignCache) : SKRes :=
  let cacheKey := cacheKeyFor secretKey datestr region
  match mapGet cache cacheKey with
  | some k => ⟨k, cache, 0⟩
  | none =>
    let kCred := deriveKey c secretKey datestr region
    ⟨kCred, mapSet cache cacheKey kCred, 4⟩

/-! The certifier (createCertifier, src/s3odm.ts lines 273-459). -/

/-- Configuration captured by createCertifier. -/
structure CertConfig where
  accessKey : String
  secretKey : String
  region : String

/-- Body of a request as classified by the certifier: a string, a value with
a byteLength property (ArrayBuffer or a view), or any other object. -/
inductive BodyVal where
  | str (s : String)
  | buf (bytes : List Nat)
  | other
deriving DecidableEq

/-- Truthiness of the optional body in the JS guard at src/s3odm.ts line 413:
absent bodies and the empty string are falsy. -/
def bodyTruthy : Option BodyVal → Bool
  | none => false
  | some (.str s) => s ≠ ""
  | some (.buf _) => true
  | some .other => true

/-- Whether the body is a string or carries a byteLength property. -/
def bodyIsStrOrBuf : Option BodyVal → Bool
  | some .other => false
  | _ => true

/-- Bytes hashed by sha256encode(body or empty string) at src/s3odm.ts
line 419: strings are UTF-8 encoded, buffers are used raw, an absent body
hashes the empty string. -/
def bodyOrEmptyBytes : Option BodyVal → List Nat
  | some (.str s) => strBytes s
  | some (.buf b) => b
  | _ => []

/-- Content hash fallback of the certifier (src/s3odm.ts lines 412-420),
reached only when the content hash header reads as null: reject a body that
is neither a string nor buffer-like, otherwise hash the body bytes. -/
def computeHashHeader (c : Crypto) (body : Option BodyVal) : Except String String :=
  if bodyTruthy body && !bodyIsStrOrBuf body then
    .error "body must be a string, ArrayBuffer or ArrayBufferView, unless you include the X-Amz-Content-Sha256 header"
  else .ok (buff2hex (c.sha256B (bodyOrEmptyBytes body)))

/-- Parsed URL handed to the certifier: the new URL platform builtin applied
to the request URL, exposing host, pathname and the decoded query pairs. -/
structure UrlT where
  host : String
  pathname : String
  searchParams : List (String × String)
deriving DecidableEq

/-- Input record of the certify closure (src/s3odm.ts lines 263-268). -/
structure CertInput where
  method : String
  url : UrlT
  baseHeaders : HeadersT
  body : Option BodyVal

/-- Request descriptor returned by the certify closure (src/s3odm.ts lines
453-457). -/
structure SignedReq where
  method : String
  headers : HeadersT
  body : Option BodyVal
deriving DecidableEq

/-- Headers excluded from signing (src/s3odm.ts lines 280-290). -/
def UNSIGNABLE_HEADERS : List String :=
  ["authorization", "content-type", "content-length", "user-agent",
   "presigned-expires", "expect", "x-amzn-trace-id", "range", "connection"]

/-- Lexicographic order on character lists by code point: the JS string
comparison used by the sort comparators. -/
def listLt : List Char → List Char → Bool
  | [], [] => false
  | [], _ :: _ => true
  | _ :: _, [] => false
  | a :: as, b :: bs => if a < b then true else if b < a then false else listLt as bs

/-- JS string less-than. -/
def strLtB (a b : String) : Bool := listLt a.data b.data

/-- Boolean string order used for the JS Array.sort on header names. -/
def strLe (a b : String) : Bool := !strLtB b a

/-- Seen-key deduplicating filter over the query pairs (src/s3odm.ts lines
381-389): empty names are dropped and only the first pair of each name is
kept. -/
def qpFilter : List String → List (String × String) → List (String × String)
  | _, [] => []
  | seen, (k, v) :: rest =>
    if k = "" then qpFilter seen rest
    else if k ∈ seen then qpFilter seen rest
    else (k, v) :: qpFilter (k :: seen) rest

/-- Per-pair encoding of the canonical query (src/s3odm.ts line 390):
encodeRFC3986 over encodeURIComponent on the name and on the value. -/
def encodePair (p : String × String) : String × String :=
  (encodeRFC3986 (encodeURIComponent p.1), encodeRFC3986 (encodeURIComponent p.2))

/-- Pair comparator of the canonical query sort (src/s3odm.ts lines 391-393)
as the keep-order relation of the JS comparator: first by name, ties by
value. -/
def qle (a b : String × String) : Bool :=
  if strLtB a.1 b.1 then true
  else if strLtB b.1 a.1 then false
  else if strLtB a.2 b.2 then true
  else if strLtB b.2 a.2 then false
  else true

/-- Canonical query string of the certifier (encodedSearch, src/s3odm.ts
lines 381-395): deduplicate, encode every pair, sort by name then value, join
each pair with an equals sign and the pairs with ampersands. -/
def canonicalQuery (params : List (String × String)) : String :=
  String.intercalate "&"
    ((List.insertionSort (fun a b => qle a b = true)
        ((qpFilter [] params).map encodePair)).map
      (fun p => p.1 ++ "=" ++ p.2))

/-- Canonical path of the certifier (encodedPath, src/s3odm.ts lines
370-379): decode the pathname with plus signs as spaces, keeping the raw
pathname when decoding throws, then re-encode, restore literal slashes and
apply the RFC 3986 fix-up. -/
def canonicalPath (pathname : String) : String :=
  let ep0 := match decodeURIComponent (plusToSpace pathname) with
    | some d => d
    | none => pathname
  encodeRFC3986 (unescapeSlash (encodeURIComponent ep0))

/-- Header preparation steps of the certify closure before signing
(src/s3odm.ts lines 337-346) other than the Host deletion: default the
content hash header to UNSIGNED-PAYLOAD when absent, then set the date
header. -/
def prepHeaders (headers1 : HeadersT) (datetime : String) : HeadersT :=
  let h := if hHas headers1 "X-Amz-Content-Sha256" then headers1
           else hSet headers1 "X-Amz-Content-Sha256" "UNSIGNED-PAYLOAD"
  hSet h "X-Amz-Date" datetime

/-- Signed request construction given the derived signing key (src/s3odm.ts
lines 348-395 and 410-457): canonical headers, canonical path and query,
content hash selection, string to sign, signature and the Authorization
header. The error case models the InvalidBodyType throw. -/
def signedReqFor (c : Crypto) (cfg : CertConfig) (datetime : String)
    (kCred : List Nat) (method : String) (url : UrlT) (headers1 : HeadersT)
    (body : Option BodyVal) : Except String SignedReq :=
  let headers := prepHeaders headers1 datetime
  let signableHeaders :=
    List.insertionSort (fun a b => strLe a b = true)
      (("host" :: hKeys headers).filter
        (fun h => !(UNSIGNABLE_HEADERS.contains h)))
  let signedHeaders := String.intercalate ";" signableHeaders
  let canonicalHeaders := String.intercalate "\n"
    (signableHeaders.map (fun h =>
      h ++ ":" ++ (if h = "host" then url.host
                   else collapseWs ((hGet headers h).getD ""))))
  let datestr := strTakeChars datetime 8
  let credentialString :=
    String.intercalate "/" [datestr, cfg.region, "s3", "aws4_request"]
  let encodedPath := canonicalPath url.pathname
  let encodedSearch := canonicalQuery url.searchParams
  let hashHeaderE : Except String String :=
    match hGet headers "X-Amz-Content-Sha256" with
    | some hh => .ok hh
    | none => computeHashHeader c body
  hashHeaderE.map (fun hashHeader =>
    let canonicalRequest := String.intercalate "\n"
      [method, encodedPath, encodedSearch, canonicalHeaders ++ "\n",
       signedHeaders, hashHeader]
    let stringToSign := String.intercalate "\n"
      ["AWS4-HMAC-SHA256", datetime, credentialString,
       buff2hex (c.sha256B (strBytes canonicalRequest))]
    let signature := buff2hex (c.hmacB kCred (strBytes stringToSign))
    let authVal := String.intercalate ", "
      ["AWS4-HMAC-SHA256 Credential=" ++ cfg.accessKey ++ "/" ++ credentialString,
       "SignedHeaders=" ++ signedHeaders,
       "Signature=" ++ signature]
    { method := method, headers := hSet headers "Authorization" authVal,
      body := body })

/-- Certify closure after the Host header deletion: derive or fetch the
signing key for the date stamp of the datetime, then build the signed
request; the result carries the cache afterwards and the number of HMAC
derivations executed. -/
def certifyAfterHost (c : Crypto) (cfg : CertConfig) (datetime : String)
    (cache : SignCache) (method : String) (url : UrlT) (headers1 : HeadersT)
    (body : Option BodyVal) : Except String (SignedReq × SignCache × Nat) :=
  let skr := getSigningKey c cfg.secretKey (strTakeChars datetime 8) cfg.region cache
  (signedReqFor c cfg datetime skr.key method url headers1 body).map
    (fun req => (req, skr.cache, skr.derivs))

/-- The certify closure returned by createCertifier (src/s3odm.ts lines
328-458): its first action on the header set is deleting Host. The datetime
parameter is the formatted current instant, the cache parameter the state of
the signing key cache before the call. -/
def certify (c : Crypto) (cfg : CertConfig) (datetime : String)
    (cache : SignCache) (input : CertInput) :
    Except String (SignedReq × SignCache × Nat) :=
  certifyAfterHost c cfg datetime cache input.method input.url
    (hDelete input.baseHeaders "Host") input.body

/-! Transport executor and facade (class S3ODM, src/s3odm.ts lines 19-255).
The network is modelled by the fetch outcome handed to each operation: either
a reply with a status, a body text and the result of parsing the body as
JSON, or a rejection of the fetch call itself. -/

/-- JSON value as parsed by the node-fetch json() method. -/
inductive JVal where
  | jnull
  | jbool (b : Bool)
  | jnum (n : Int)
  | jstr (s : String)
  | jarr (elems : List JVal)
  | jobj (fields : List (String × JVal))

/-- JS truthiness of a parsed JSON value. -/
def truthy : JVal → Bool
  | .jnull => false
  | .jbool b => b
  | .jnum n => n ≠ 0
  | .jstr s => s ≠ ""
  | .jarr _ => true
  | .jobj _ => true

/-- First field of an object field list with the given name. -/
def lookupField : List (String × JVal) → String → Option JVal
  | [], _ => none
  | (k, v) :: rest, n => if k = n then some v else lookupField rest n

/-- The optional chaining access on the parsed document: the underscore-id
field of an object, undefined on every other value. -/
def idField : JVal → Option JVal
  | .jobj fs => lookupField fs "_id"
  | _ => none

/-- Whether the underscore-id access is falsy: the field is absent or holds a
falsy value. -/
def falsyId (d : JVal) : Bool :=
  match idField d with
  | none => true
  | some v => !truthy v

/-- JS property assignment on an object field list: replace the first field
with the name in place, or append it. -/
def setField : List (String × JVal) → String → JVal → List (String × JVal)
  | [], n, v => [(n, v)]
  | (k, w) :: rest, n, v =>
    if k = n then (k, v) :: rest else (k, w) :: setField rest n v

/-- The underscore-id repair assignment of findById (src/s3odm.ts line 81):
on an object it sets the field from the path id; on any other value the
assignment has no observable effect on the returned JSON value. -/
def assignId (d : JVal) (i : String) : JVal :=
  match d with
  | .jobj fs => .jobj (setField fs "_id" (.jstr i))
  | d => d

/-- Reply visible to the facade: HTTP status, body text, and the JSON parse
of the body (error models the json() rejection on malformed bodies). -/
structure Reply where
  status : Nat
  text : String
  json : Except String JVal

/-- Outcome of the fetch call: a reply, or a rejection of fetch itself. -/
inductive FetchOutcome where
  | reply (r : Reply)
  | netFail (msg : String)

/-- Errors crossing the facade boundary: the HttpException thrown by execute
with its status code, a fetch rejection, or a json() rejection. -/
inductive ExecErr where
  | httpE (code : Nat)
  | fetchE (msg : String)
  | jsonE (msg : String)
deriving DecidableEq

/-- Message of the HttpException class (src/s3odm.ts lines 6-10). -/
def httpExMessage (code : Nat) : String := "HTTP Error " ++ toString code

/-- Transport executor S3ODM.execute (src/s3odm.ts lines 48-69) applied to
the outcome of its fetch call: return the reply when the status equals the
expected success code of the call site, otherwise throw HttpException with
the status; a fetch rejection propagates. -/
def executeRes (okCode : Nat) (out : FetchOutcome) : Except ExecErr Reply :=
  match out with
  | .netFail m => .error (.fetchE m)
  | .reply r => if r.status = okCode then .ok r else .error (.httpE r.status)

/-- Object key written by S3ODM.insert and read by findById and exists
(src/s3odm.ts lines 77, 99, 111, 122): table, slash, id and the json
extension. -/
def storedKey (vTable _id : String) : String := vTable ++ "/" ++ _id ++ ".json"

/-- S3ODM.findById (src/s3odm.ts lines 74-93) applied to the fetch outcome
for the stored key of the requested id: parse the body, repair a falsy
underscore-id from the path id, return none exactly on an HttpException with
code 404, and rethrow every other error. -/
def findByIdRes (_id : String) (out : FetchOutcome) : Except ExecErr (Option JVal) :=
  match executeRes 200 out with
  | .ok r =>
    match r.json with
    | .error m => .error (.jsonE m)
    | .ok document =>
      if truthy document && falsyId document then .ok (some (assignId document _id))
      else .ok (some document)
  | .error e =>
    match e with
    | .httpE c => if c = 404 then .ok none else .error (.httpE c)
    | e => .error e

/-- S3ODM.exists (src/s3odm.ts lines 98-102) applied to the fetch outcome of
its HEAD request: the double negation of the reply object on success, and a
catch-all mapping every rejection to false. -/
def existsRes (out : FetchOutcome) : Bool :=
  match executeRes 200 out with
  | .ok _ => true
  | .error _ => false

/-- S3ODM.insert (src/s3odm.ts lines 107-116) applied to the fetch outcome of
its PUT request: echo the document when execute accepts status 200. -/
def insertRes (document : JVal) (out : FetchOutcome) : Except ExecErr JVal :=
  (executeRes 200 out).map (fun _ => document)

/-- S3ODM.deleteById (src/s3odm.ts lines 121-123) applied to the fetch
outcome of its DELETE request: execute with expected success code 204. -/
def deleteByIdRes (out : FetchOutcome) : Except ExecErr Reply :=
  executeRes 204 out

/-- One manifest entry of the multi-object delete body built by
S3ODM.deleteByIds (src/s3odm.ts line 130). -/
def deleteManifestEntry (vTable _id : String) : String :=
  "<Object><Key>" ++ vTable ++ "/" ++ _id ++ "</Key></Object>"

/-- XML manifest body of S3ODM.deleteByIds (src/s3odm.ts lines 129-131). -/
def deleteManifest (vTable : String) (_ids : List String) : String :=
  "<Delete>" ++ String.join (_ids.map (deleteManifestEntry vTable)) ++ "</Delete>"

/-- Object keys named by the delete manifest. -/
def manifestKeys (vTable : String) (_ids : List String) : List String :=
  _ids.map (fun i => vTable ++ "/" ++ i)

/-- The single request issued by S3ODM.deleteByIds (src/s3odm.ts line 133):
method, expected success code, path and body. -/
def deleteByIdsRequest (vTable : String) (_ids : List String) :
    String × Nat × String × String :=
  ("POST", 200, "?delete", deleteManifest vTable _ids)

/-! Listing engine S3ODM.listIds (src/s3odm.ts lines 139-198). A page is the
list of text chunk values delivered by the streaming tokenizer for the
matched key elements of one listing response; the store is the sequence of
pages successive fetches return, an exhausted store answering with an empty
page. -/

/-- Loop state of listIds: accumulated ids, the pagination marker, and the
match counter of the current page. -/
structure ListState where
  ids : List String
  marker : Option String
  matchCount : Nat
deriving DecidableEq

/-- Suffix-stripping replacement applied to each key (src/s3odm.ts line 181):
remove one trailing json extension. -/
def stripJsonSuffix (s : String) : String :=
  if ".json".data <:+ s.data then ⟨s.data.take (s.data.length - 5)⟩ else s

/-- Bare id recovered from a key (src/s3odm.ts line 181): drop the table
prefix, then strip the json extension. -/
def stripId (pfx chunk : String) : String :=
  stripJsonSuffix (strDropChars chunk pfx.length)

/-- Text callback of the listIds tokenizer (src/s3odm.ts lines 174-187): a
nonempty chunk bumps the match counter; when it also differs from the table
prefix, its stripped id is appended and it becomes the new marker. -/
def processChunk (pfx : String) (st : ListState) (chunk : String) : ListState :=
  if chunk ≠ "" then
    let st1 : ListState := { st with matchCount := st.matchCount + 1 }
    if chunk ≠ pfx then
      { st1 with ids := st1.ids ++ [stripId pfx chunk], marker := some chunk }
    else st1
  else st

/-- Processing of one listing page: reset the match counter, then run the
text callback over every chunk. -/
def processPage (pfx : String) (st : ListState) (page : List String) : ListState :=
  page.foldl (processChunk pfx) { st with matchCount := 0 }

/-- Paging loop of listIds over the page sequence of the store: each
iteration fetches with the current marker as the start-after parameter (the
returned list records one such value per fetch, none for an absent marker),
processes the page, and continues exactly when the match count equals the
chunk size. -/
def listIdsGo (pfx : String) (chunkSize : Nat) :
    ListState → List (List String) → List String × List (Option String)
  | st, [] => (st.ids, [st.marker])
  | st, page :: rest =>
    let st1 := processPage pfx st page
    if st1.matchCount = chunkSize then
      let r := listIdsGo pfx chunkSize st1 rest
      (r.1, st.marker :: r.2)
    else (st1.ids, [st.marker])

/-- Table prefix normalization of listIds (src/s3odm.ts lines 148-150): a
trailing slash is appended when missing. -/
def normPfx (vTable : String) : String :=
  if vTable.data.getLast? = some '/' then vTable else vTable ++ "/"

/-- S3ODM.listIds (src/s3odm.ts lines 139-198) against a store: the ids
accumulated and the start-after value of every page request, with chunk size
1000. -/
def listIdsModel (vTable : String) (pages : List (List String)) :
    List String × List (Option String) :=
  listIdsGo (normPfx vTable) 1000 ⟨[], none, 0⟩ pages


/-! Helper lemmas about the header set, the signing key cache and the listing
loop. -/

/-- Setting a header makes it readable. -/
theorem hGet_hSet_same (h : HeadersT) (n v : String) :
    hGet (hSet h n v) n = some v := by
  induction h with
  | nil => simp [hGet, hSet, List.find?]
  | cons p t ih =>
    obtain ⟨k, w⟩ := p
    by_cases hk : k = lowerName n
    · simp [hGet, hSet, hk, List.find?]
    · simpa [hGet, hSet, hk, List.find?] using ih

/-- Setting a header leaves other header names unchanged. -/
theorem hGet_hSet_ne (h : HeadersT) (n n' v : String)
    (hne : lowerName n ≠ lowerName n') : hGet (hSet h n v) n' = hGet h n' := by
  induction h with
  | nil => simp [hGet, hSet, List.find?, hne]
  | cons p t ih =>
    obtain ⟨k, w⟩ := p
    by_cases hk : k = lowerName n
    · subst hk
      simp [hGet, hSet, List.find?, hne]
    · simp only [hSet, if_neg hk]
      by_cases hk' : k = lowerName n'
      · simp [hGet, List.find?, hk']
      · simpa [hGet, List.find?, hk'] using ih

/-- An absent header reads as none. -/
theorem hGet_eq_none (h : HeadersT) (n : String) (hh : hHas h n = false) :
    hGet h n = none := by
  have hall := List.any_eq_false.mp hh
  have hf : h.find? (fun p => p.1 = lowerName n) = none :=
    List.find?_eq_none.mpr hall
  simp [hGet, hf]

/-- A present header reads as some value. -/
theorem hGet_isSome_of_hHas (h : HeadersT) (n : String) (hh : hHas h n = true) :
    ∃ v, hGet h n = some v := by
  obtain ⟨x, hx, hpx⟩ := List.any_eq_true.mp hh
  have hs : (h.find? (fun p => p.1 = lowerName n)).isSome := by
    rw [List.find?_isSome]
    exact ⟨x, hx, hpx⟩
  obtain ⟨y, hy⟩ := Option.isSome_iff_exists.mp hs
  exact ⟨y.2, by simp [hGet, hy]⟩

/-- Deleting one header cannot make another appear. -/
theorem hHas_hDelete_false (h : HeadersT) (n m : String)
    (hh : hHas h m = false) : hHas (hDelete h n) m = false := by
  have hall := List.any_eq_false.mp hh
  refine List.any_eq_false.mpr ?_
  intro x hx
  exact hall x (List.mem_of_mem_filter hx)

/-- Deleting a header after setting it equals deleting it outright. -/
theorem hDelete_hSet_same (h : HeadersT) (n v : String) :
    hDelete (hSet h n v) n = hDelete h n := by
  induction h with
  | nil => simp [hSet, hDelete]
  | cons p t ih =>
    obtain ⟨k, w⟩ := p
    by_cases hk : k = lowerName n
    · simp [hSet, hDelete, hk]
    · simp only [hSet, if_neg hk, hDelete, List.filter_cons] at ih ⊢
      simp only [ne_eq, decide_not] at ih ⊢
      simp [hk, ih]

/-- Map.set makes the entry readable. -/
theorem mapGet_mapSet_same (m : SignCache) (k : String) (v : List Nat) :
    mapGet (mapSet m k v) k = some v := by
  induction m with
  | nil => simp [mapGet, mapSet, List.find?]
  | cons p t ih =>
    obtain ⟨k1, v1⟩ := p
    by_cases hk : k1 = k
    · simp [mapGet, mapSet, hk, List.find?]
    · simpa [mapGet, mapSet, hk, List.find?] using ih

/-- A second signing key lookup on the cache produced by a first lookup hits:
same key, unchanged cache, zero derivations. -/
theorem getSigningKey_idem (c : Crypto) (s d r : String) (cache : SignCache) :
    getSigningKey c s d r (getSigningKey c s d r cache).cache =
      ⟨(getSigningKey c s d r cache).key, (getSigningKey c s d r cache).cache, 0⟩ := by
  unfold getSigningKey
  cases hm : mapGet cache (cacheKeyFor s d r) with
  | some k => simp [hm]
  | none => simp [hm, mapGet_mapSet_same]

/-- A signing key lookup on a cache missing the entry derives the chain and
stores it. -/
theorem getSigningKey_miss (c : Crypto) (s d r : String) (cache : SignCache)
    (hm : mapGet cache (cacheKeyFor s d r) = none) :
    getSigningKey c s d r cache =
      ⟨deriveKey c s d r,
       mapSet cache (cacheKeyFor s d r) (deriveKey c s d r), 4⟩ := by
  unfold getSigningKey
  simp [hm]

/-- Chunks of a page that contribute an id: nonempty and different from the
table prefix. -/
def pageKeep (pfx : String) (page : List String) : List String :=
  page.filter (fun c => c ≠ "" && c ≠ pfx)

/-- Number of nonempty chunks of a page: the value of the match counter after
the page is processed. -/
def countNonEmpty (page : List String) : Nat :=
  page.countP (fun c => c ≠ "")

/-- Last element of a list, or a fallback: the marker after a page given the
marker before it. -/
def lastOr : List String → Option String → Option String
  | [], d => d
  | a :: t, _ => lastOr t (some a)

/-- Characterization of the text callback fold: the kept chunks are appended
as stripped ids in page order, the marker becomes the last kept chunk, and
the counter advances by the number of nonempty chunks. -/
theorem foldl_processChunk (pfx : String) (page : List String) :
    ∀ st : ListState,
      page.foldl (processChunk pfx) st =
        ⟨st.ids ++ (pageKeep pfx page).map (stripId pfx),
         lastOr (pageKeep pfx page) st.marker,
         st.matchCount + countNonEmpty page⟩ := by
  induction page with
  | nil => intro st; simp [pageKeep, countNonEmpty, lastOr]
  | cons c rest ih =>
    intro st
    rw [List.foldl_cons, ih]
    by_cases hc : c = ""
    · subst hc
      simp [processChunk, pageKeep, countNonEmpty, lastOr, List.filter_cons,
        List.countP_cons]
    · by_cases hp : c = pfx
      · subst hp
        simp only [processChunk, pageKeep, countNonEmpty, lastOr,
          List.filter_cons, List.countP_cons]
        simp [hc]
        omega
      · simp only [processChunk, pageKeep, countNonEmpty, lastOr,
          List.filter_cons, List.countP_cons]
        simp [hc, hp, lastOr]
        omega

/-- Characterization of one page of the listing loop. -/
theorem processPage_eq (pfx : String) (st : ListState) (page : List String) :
    processPage pfx st page =
      ⟨st.ids ++ (pageKeep pfx page).map (stripId pfx),
       lastOr (pageKeep pfx page) st.marker,
       countNonEmpty page⟩ := by
  unfold processPage
  rw [foldl_processChunk]
  simp

/-- One loop step that continues: a full page recurses and logs the marker
used for its fetch. -/
theorem listIdsGo_cons_go (pfx : String) (cs : Nat) (st : ListState)
    (page : List String) (rest : List (List String))
    (h : (processPage pfx st page).matchCount = cs) :
    listIdsGo pfx cs st (page :: rest) =
      ((listIdsGo pfx cs (processPage pfx st page) rest).1,
       st.marker :: (listIdsGo pfx cs (processPage pfx st page) rest).2) := by
  simp [listIdsGo, h]

/-- One loop step that stops: a page short of the chunk size ends the loop
with the accumulated ids. -/
theorem listIdsGo_cons_stop (pfx : String) (cs : Nat) (st : ListState)
    (page : List String) (rest : List (List String))
    (h : (processPage pfx st page).matchCount ≠ cs) :
    listIdsGo pfx cs st (page :: rest) =
      ((processPage pfx st page).ids, [st.marker]) := by
  simp [listIdsGo, h]

/-- Document id family for the listing scenario: i plus one letters. -/
def aId (i : Nat) : String := ⟨List.replicate (i + 1) 'a'⟩

/-- Stored key family for the listing scenario under table t. -/
def aKey (i : Nat) : String := "t/" ++ aId i ++ ".json"

/-- Store of the pagination scenario: a full first page of one thousand keys
followed by a page of three keys. -/
def pagesC3 : List (List String) :=
  [(List.range 1000).map aKey, [aKey 1000, aKey 1001, aKey 1002]]

/-- Character data of a scenario key. -/
theorem aKey_data (i : Nat) :
    (aKey i).data =
      't' :: '/' :: (List.replicate (i + 1) 'a' ++ ['.', 'j', 's', 'o', 'n']) := by
  show (("t/" : String) ++ (aId i ++ ".json")).data = _
  rw [String.data_append, String.data_append]
  show ['t', '/'] ++ ((aId i).data ++ ['.', 'j', 's', 'o', 'n']) = _
  simp [aId]

/-- Scenario keys are nonempty. -/
theorem aKey_ne_empty (i : Nat) : aKey i ≠ "" := by
  intro h
  have hd := congrArg String.data h
  rw [aKey_data] at hd
  simp at hd

/-- Scenario keys differ from the table prefix. -/
theorem aKey_ne_pfx (i : Nat) : aKey i ≠ "t/" := by
  intro h
  have hd := congrArg String.data h
  rw [aKey_data] at hd
  simp at hd

/-- Stripping a scenario key recovers its bare id. -/
theorem stripId_aKey (i : Nat) : stripId "t/" (aKey i) = aId i := by
  have hdrop : (strDropChars (aKey i) 2).data =
      List.replicate (i + 1) 'a' ++ ['.', 'j', 's', 'o', 'n'] := by
    show ((aKey i).data.drop 2) = _
    rw [aKey_data]
    rfl
  have hlen : ("t/" : String).length = 2 := rfl
  unfold stripId
  rw [hlen]
  unfold stripJsonSuffix
  rw [if_pos]
  · apply String.ext
    show (strDropChars (aKey i) 2).data.take _ = (aId i).data
    rw [hdrop]
    have hl : (List.replicate (i + 1) 'a' ++ (['.', 'j', 's', 'o', 'n'] : List Char)).length
        = (i + 1) + 5 := by
      simp
    rw [hl]
    have : (i + 1) + 5 - 5 = (List.replicate (i + 1) 'a').length := by simp
    rw [this, List.take_left]
    rfl
  · rw [hdrop]
    exact List.suffix_append _ _

/-- Scenario ids are pairwise distinct. -/
theorem aId_injective : Function.Injective aId := by
  intro i j h
  have hd : List.replicate (i + 1) 'a' = List.replicate (j + 1) 'a' :=
    congrArg String.data h
  have hl := congrArg List.length hd
  simp at hl
  omega

/-- Last element of a concatenation with a singleton under lastOr. -/
theorem lastOr_concat (l : List String) (a : String) :
    ∀ d, lastOr (l ++ [a]) d = some a := by
  induction l with
  | nil => intro d; rfl
  | cons c t ih => intro d; exact ih (some c)

/-- Every scenario key survives the keep filter. -/
theorem pageKeep_map_aKey (l : List Nat) :
    pageKeep "t/" (l.map aKey) = l.map aKey := by
  refine List.filter_eq_self.mpr ?_
  intro a ha
  obtain ⟨i, _, rfl⟩ := List.mem_map.mp ha
  simp [aKey_ne_empty, aKey_ne_pfx]

/-- Every scenario key counts as a match. -/
theorem countNonEmpty_map_aKey (l : List Nat) :
    countNonEmpty (l.map aKey) = l.length := by
  unfold countNonEmpty
  rw [List.countP_eq_length.mpr]
  · simp
  · intro a ha
    obtain ⟨i, _, rfl⟩ := List.mem_map.mp ha
    simp [aKey_ne_empty]

/-- Stripping the scenario keys yields the scenario ids. -/
theorem map_stripId_aKey (l : List Nat) :
    (l.map aKey).map (stripId "t/") = l.map aId := by
  rw [List.map_map]
  exact List.map_congr_left (fun i _ => stripId_aKey i)

/-- First page of the scenario: one thousand ids, marker on the last key, a
full match counter. -/
theorem scenario_page1 :
    processPage "t/" ⟨[], none, 0⟩ ((List.range 1000).map aKey) =
      ⟨(List.range 1000).map aId, some (aKey 999), 1000⟩ := by
  rw [processPage_eq, pageKeep_map_aKey, map_stripId_aKey, countNonEmpty_map_aKey]
  have h999 : (List.range 1000).map aKey = (List.range 999).map aKey ++ [aKey 999] := by
    rw [show (1000 : Nat) = 999 + 1 from rfl, List.range_succ, List.map_append]
    rfl
  rw [h999, lastOr_concat]
  simp

/-- Second page of the scenario: three more ids, match counter three. -/
theorem scenario_page2 :
    processPage "t/" ⟨(List.range 1000).map aId, some (aKey 999), 1000⟩
        [aKey 1000, aKey 1001, aKey 1002] =
      ⟨(List.range 1000).map aId ++ [aId 1000, aId 1001, aId 1002],
       some (aKey 1002), 3⟩ := by
  rw [processPage_eq]
  have hk : pageKeep "t/" [aKey 1000, aKey 1001, aKey 1002] =
      [aKey 1000, aKey 1001, aKey 1002] := by
    simpa using pageKeep_map_aKey [1000, 1001, 1002]
  have hc : countNonEmpty [aKey 1000, aKey 1001, aKey 1002] = 3 := by
    simpa using countNonEmpty_map_aKey [1000, 1001, 1002]
  rw [hk, hc]
  have hs : ([aKey 1000, aKey 1001, aKey 1002].map (stripId "t/")) =
      [aId 1000, aId 1001, aId 1002] := by
    simpa using map_stripId_aKey [1000, 1001, 1002]
  rw [hs]
  have hm : lastOr [aKey 1000, aKey 1001, aKey 1002] (some (aKey 999)) =
      some (aKey 1002) := by
    simp only [lastOr]
  rw [hm]

/-- The scenario ids in one piece. -/
theorem scenario_ids :
    (List.range 1000).map aId ++ [aId 1000, aId 1001, aId 1002] =
      (List.range 1003).map aId := by
  rw [show (1003 : Nat) = 1000 + 3 from rfl, List.range_add, List.map_append,
    List.map_map]
  have h3 : List.range 3 = [0, 1, 2] := rfl
  rw [h3]
  simp

/-- Full run of listIds on the scenario store: the three-key second page ends
the loop, the first fetch carries no start-after value and the second carries
the last key of the first page. -/
theorem listIds_scenario :
    listIdsModel "t" pagesC3 =
      ((List.range 1003).map aId, [none, some (aKey 999)]) := by
  have hnorm : normPfx "t" = "t/" := by decide
  unfold listIdsModel pagesC3
  rw [hnorm]
  have hgo : (processPage "t/" ⟨[], none, 0⟩ ((List.range 1000).map aKey)).matchCount
      = 1000 := by rw [scenario_page1]
  rw [listIdsGo_cons_go _ _ _ _ _ hgo, scenario_page1]
  have hstop : (processPage "t/" ⟨(List.range 1000).map aId, some (aKey 999), 1000⟩
      [aKey 1000, aKey 1001, aKey 1002]).matchCount ≠ 1000 := by
    rw [scenario_page2]
    exact (by decide : (3 : Nat) ≠ 1000)
  rw [listIdsGo_cons_stop _ _ _ _ _ hstop, scenario_page2]
  simp [scenario_ids]

/-- C3: listIds processes each page by counting the matched nonempty text
nodes, appending the stripped bare id of every match different from the table
prefix in first-seen order while recording the match as the new start-after
marker (the prefix pseudo-key contributes nothing), requests another page
exactly when the match count equals 1000, so the 1000-then-3 store yields the
1003 distinct ids in order over two fetches, and a first page short of 1000
causes exactly one fetch. -/
theorem claim_C3 :
    (∀ (pfx : String) (st : ListState) (page : List String),
        processPage pfx st page =
          ⟨st.ids ++ (pageKeep pfx page).map (stripId pfx),
           lastOr (pageKeep pfx page) st.marker,
           countNonEmpty page⟩)
    ∧ (∀ (pfx : String) (st : ListState) (xs ys : List String),
        (processPage pfx st (xs ++ pfx :: ys)).ids =
          (processPage pfx st (xs ++ ys)).ids)
    ∧ listIdsModel "t" pagesC3 =
        ((List.range 1003).map aId, [none, some (aKey 999)])
    ∧ ((List.range 1003).map aId).length = 1003
    ∧ ((List.range 1003).map aId).Nodup
    ∧ (∀ (vTable : String) (page : List String) (rest : List (List String)),
        countNonEmpty page < 1000 →
        (listIdsModel vTable (page :: rest)).2.length = 1) := by
  refine ⟨processPage_eq, ?_, listIds_scenario, ?_, ?_, ?_⟩
  · intro pfx st xs ys
    rw [processPage_eq, processPage_eq]
    simp [pageKeep, List.filter_append, List.filter_cons]
  · simp
  · exact (List.nodup_range 1003).map aId_injective
  · intro vTable page rest h
    unfold listIdsModel
    rw [listIdsGo_cons_stop]
    · rfl
    · rw [processPage_eq]
      show countNonEmpty page ≠ 1000
      omega

/-- Witness for C3: a single-key first page is below the chunk size and leads
to exactly one page fetch. -/
theorem claim_C3_witness :
    countNonEmpty ["t/x.json"] < 1000 ∧
      (listIdsModel "t" [["t/x.json"]]).2.length = 1 :=
  ⟨by decide, claim_C3.2.2.2.2.2 "t" ["t/x.json"] [] (by decide)⟩

/-- C5: deleteByIds issues one POST to the delete endpoint whose manifest has
one Object Key entry per id; evaluated at the failing input, the manifest key
users/42 lacks the json extension, while insert stores users/42.json, so the
manifest does not address the stored document. -/
theorem claim_C5_bug :
    deleteByIdsRequest "users" ["42"] =
      ("POST", 200, "?delete",
        "<Delete><Object><Key>users/42</Key></Object></Delete>")
    ∧ (∀ (vTable : String) (_ids : List String),
        (manifestKeys vTable _ids).length = _ids.length)
    ∧ storedKey "users" "42" = "users/42.json"
    ∧ manifestKeys "users" ["42"] = ["users/42"]
    ∧ ("users/42" : String) ≠ "users/42.json" := by
  exact ⟨rfl, fun v l => List.length_map l _, rfl, rfl, by decide⟩

/-- C4 counterexample: a 409 reply with a body text fails with the uniform
HttpException whose message is the generic status line and does not include
the body text, refuting the per-status classification with body-carrying
conflict messages. -/
theorem claim_C4_cex :
    executeRes 200 (.reply ⟨409, "conflict body text", .ok .jnull⟩) =
      .error (.httpE 409)
    ∧ httpExMessage 409 = "HTTP Error 409"
    ∧ ¬ ("conflict body text".data <:+: (httpExMessage 409).data) :=
  ⟨rfl, rfl, by decide⟩

/-- C4 (amended): execute returns the reply exactly when the status equals
the single expected success code of the call site; any other status raises
the one HttpException error carrying that status code, whose message is the
generic status line for every status, 403, 404 and 409 included. -/
theorem claim_C4 :
    (∀ (okCode : Nat) (r : Reply),
        executeRes okCode (.reply r) = .ok r ↔ r.status = okCode)
    ∧ (∀ (okCode : Nat) (r : Reply), r.status ≠ okCode →
        executeRes okCode (.reply r) = .error (.httpE r.status))
    ∧ (∀ code : Nat, httpExMessage code = "HTTP Error " ++ toString code) := by
  refine ⟨?_, ?_, fun code => rfl⟩
  · intro okCode r
    unfold executeRes
    by_cases h : r.status = okCode
    · simp [h]
    · simp [h]
  · intro okCode r h
    unfold executeRes
    simp [h]

/-- Witness for C4: a 500 reply against expected status 200 raises the
HttpException carrying 500. -/
theorem claim_C4_witness :
    (⟨500, "", .ok .jnull⟩ : Reply).status ≠ 200 ∧
      executeRes 200 (.reply ⟨500, "", .ok .jnull⟩) = .error (.httpE 500) :=
  ⟨by decide, claim_C4.2.1 200 ⟨500, "", .ok .jnull⟩ (by decide)⟩

/-- C9: exists never propagates an error: it is a total boolean, false on
every fetch rejection and every non-200 status, true exactly when the HEAD
reply carries the expected success status 200. -/
theorem claim_C9 :
    ∀ out : FetchOutcome,
      existsRes out = true ↔ ∃ r : Reply, out = .reply r ∧ r.status = 200 := by
  intro out
  cases out with
  | netFail m => simp [existsRes, executeRes]
  | reply r =>
    by_cases h : r.status = 200
    · simp [existsRes, executeRes, h]
    · simp [existsRes, executeRes, h]

/-- C10: each operation fixes exactly one success status: execute succeeds
precisely on the expected code, deleteById expects 204 so even a success-like
200 raises an error carrying that status, insert and the 200-expecting calls
succeed only on exactly 200, the batch delete request also expects 200, and
exists is false for a HEAD answered with the 2xx status 204. -/
theorem claim_C10 :
    (∀ (okCode : Nat) (out : FetchOutcome) (r : Reply),
        executeRes okCode out = .ok r → out = .reply r ∧ r.status = okCode)
    ∧ (∀ (t : String) (j : Except String JVal),
        deleteByIdRes (.reply ⟨200, t, j⟩) = .error (.httpE 200))
    ∧ (∀ (d : JVal) (t : String) (j : Except String JVal),
        insertRes d (.reply ⟨200, t, j⟩) = .ok d)
    ∧ (∀ (d : JVal) (r : Reply), r.status ≠ 200 →
        insertRes d (.reply r) = .error (.httpE r.status))
    ∧ (∀ (t : String) (j : Except String JVal),
        existsRes (.reply ⟨204, t, j⟩) = false)
    ∧ (∀ (t : String) (j : Except String JVal),
        existsRes (.reply ⟨200, t, j⟩) = true)
    ∧ (deleteByIdsRequest "users" ["1", "2"]).2.1 = 200 := by
  refine ⟨?_, ?_, ?_, ?_, ?_, ?_, rfl⟩
  · intro okCode out r h
    cases out with
    | netFail m => simp [executeRes] at h
    | reply r0 =>
      simp only [executeRes] at h
      by_cases hs : r0.status = okCode
      · rw [if_pos hs] at h
        cases h
        exact ⟨rfl, hs⟩
      · rw [if_neg hs] at h
        cases h
  · intro t j
    rfl
  · intro d t j
    rfl
  · intro d r h
    unfold insertRes
    simp only [executeRes, if_neg h]
    rfl
  · intro t j
    rfl
  · intro t j
    rfl

/-- Witness for C10: a 204 reply on insert, which expects 200, raises the
error carrying 204. -/
theorem claim_C10_witness :
    (⟨204, "", .ok .jnull⟩ : Reply).status ≠ 200 ∧
      insertRes .jnull (.reply ⟨204, "", .ok .jnull⟩) = .error (.httpE 204) :=
  ⟨by decide, claim_C10.2.2.2.1 .jnull ⟨204, "", .ok .jnull⟩ (by decide)⟩

/-- C8: findById returns the explicit null on a 404 reply, propagates every
non-404 failure unchanged (fetch rejections, other statuses, body parse
failures), and populates the id field from the request path id when the
parsed object lacks one. -/
theorem claim_C8 :
    (∀ (i t : String) (j : Except String JVal),
        findByIdRes i (.reply ⟨404, t, j⟩) = .ok none)
    ∧ (∀ i m : String, findByIdRes i (.netFail m) = .error (.fetchE m))
    ∧ (∀ (i : String) (r : Reply), r.status ≠ 200 → r.status ≠ 404 →
        findByIdRes i (.reply r) = .error (.httpE r.status))
    ∧ (∀ i t m : String,
        findByIdRes i (.reply ⟨200, t, .error m⟩) = .error (.jsonE m))
    ∧ (∀ (i t : String) (fields : List (String × JVal)),
        lookupField fields "_id" = none →
        findByIdRes i (.reply ⟨200, t, .ok (.jobj fields)⟩) =
          .ok (some (.jobj (setField fields "_id" (.jstr i))))) := by
  refine ⟨?_, ?_, ?_, ?_, ?_⟩
  · intro i t j
    rfl
  · intro i m
    rfl
  · intro i r h200 h404
    unfold findByIdRes executeRes
    simp [h200, h404]
  · intro i t m
    rfl
  · intro i t fields hmiss
    unfold findByIdRes executeRes
    simp only [if_pos rfl]
    have ht : truthy (.jobj fields) = true := rfl
    have hf : falsyId (.jobj fields) = true := by
      simp only [falsyId, idField]
      rw [hmiss]
    simp [ht, hf, assignId]

/-- Witness for C8: a 500 reply propagates as the error carrying 500, and a
body parsing to an object without an id field comes back with the path id
injected. -/
theorem claim_C8_witness :
    findByIdRes "42" (.reply ⟨500, "", .ok .jnull⟩) = .error (.httpE 500) ∧
      findByIdRes "42" (.reply ⟨200, "", .ok (.jobj [("name", .jstr "Jane")])⟩) =
        .ok (some (.jobj [("name", .jstr "Jane"), ("_id", .jstr "42")])) :=
  ⟨claim_C8.2.2.1 "42" ⟨500, "", .ok .jnull⟩ (by decide) (by decide),
   claim_C8.2.2.2.2 "42" "" [("name", .jstr "Jane")] rfl⟩

/-- Deleting a header twice equals deleting it once. -/
theorem hDelete_idem (h : HeadersT) (n : String) :
    hDelete (hDelete h n) n = hDelete h n := by
  simp [hDelete, List.filter_filter]

/-- Content hash header after header preparation when the caller supplied
none: the UNSIGNED-PAYLOAD default. -/
theorem prepHeaders_hash (h1 : HeadersT) (dt : String)
    (hno : hHas h1 "X-Amz-Content-Sha256" = false) :
    hGet (prepHeaders h1 dt) "X-Amz-Content-Sha256" = some "UNSIGNED-PAYLOAD" := by
  unfold prepHeaders
  rw [hno]
  simp only [Bool.false_eq_true, if_false]
  rw [hGet_hSet_ne _ _ _ _ (by decide), hGet_hSet_same]

/-- Signed request construction when the prepared headers carry a content
hash value: the request is produced and its content hash header is that
value. -/
theorem signedReqFor_hash (c : Crypto) (cfg : CertConfig) (dt : String)
    (k : List Nat) (m : String) (url : UrlT) (h1 : HeadersT)
    (body : Option BodyVal) (v : String)
    (hget : hGet (prepHeaders h1 dt) "X-Amz-Content-Sha256" = some v) :
    ∃ req : SignedReq, signedReqFor c cfg dt k m url h1 body = .ok req ∧
      hGet req.headers "X-Amz-Content-Sha256" = some v := by
  simp only [signedReqFor]
  rw [hget]
  refine ⟨_, rfl, ?_⟩
  rw [hGet_hSet_ne _ _ _ _ (by decide)]
  exact hget

/-- C1 (amended): when the caller supplies no content-hash header, the signer
always selects the literal UNSIGNED-PAYLOAD regardless of the body — the
header is defaulted before the hash variable is read, so the body-hash
computation and the InvalidBodyType rejection are unreachable — and signing
succeeds for every body, including one that is neither a string nor
buffer-like. -/
theorem claim_C1 (c : Crypto) (cfg : CertConfig) (dt : String)
    (cache : SignCache) (m : String) (url : UrlT) (bh : HeadersT)
    (body : Option BodyVal)
    (hno : hHas bh "X-Amz-Content-Sha256" = false) :
    ∃ req : SignedReq,
      certify c cfg dt cache ⟨m, url, bh, body⟩ =
        .ok (req,
          (getSigningKey c cfg.secretKey (strTakeChars dt 8) cfg.region cache).cache,
          (getSigningKey c cfg.secretKey (strTakeChars dt 8) cfg.region cache).derivs)
      ∧ hGet req.headers "X-Amz-Content-Sha256" = some "UNSIGNED-PAYLOAD" := by
  have hno2 : hHas (hDelete bh "Host") "X-Amz-Content-Sha256" = false :=
    hHas_hDelete_false bh "Host" "X-Amz-Content-Sha256" hno
  obtain ⟨req, hok, hh⟩ := signedReqFor_hash c cfg dt
    (getSigningKey c cfg.secretKey (strTakeChars dt 8) cfg.region cache).key
    m url (hDelete bh "Host") body "UNSIGNED-PAYLOAD"
    (prepHeaders_hash (hDelete bh "Host") dt hno2)
  refine ⟨req, ?_, hh⟩
  unfold certify certifyAfterHost
  simp only [hok, Except.map]

/-- Collision-free toy instantiation of the crypto primitives for concrete
evaluations: the HMAC records the key length, the key and the message, and
the digest is the identity. -/
def toyCrypto : Crypto :=
  ⟨fun k msg => k.length :: (k ++ msg), fun b => b⟩

/-- Example URL for concrete signing calls. -/
def urlEx : UrlT := ⟨"h.example", "/bucket/users/42.json", []⟩

/-- Example configuration for concrete signing calls. -/
def cfgEx : CertConfig := ⟨"acc", "sec", "auto"⟩

/-- Content hash header of a certify result. -/
def contentHashOf (e : Except String (SignedReq × SignCache × Nat)) :
    Option (Option String) :=
  match e with
  | .ok (req, _, _) => some (hGet req.headers "X-Amz-Content-Sha256")
  | .error _ => none

/-- C1 counterexample: at a concrete signing call with the string body hello
present and no caller content-hash header, the selected hash is the
placeholder UNSIGNED-PAYLOAD and not the hex digest of the body; and the
signing call whose body is neither a string nor buffer-like succeeds instead
of failing with the InvalidBodyType error. -/
theorem claim_C1_cex :
    contentHashOf (certify toyCrypto cfgEx "20240101T000000Z" []
        ⟨"PUT", urlEx, [], some (.str "hello")⟩) =
      some (some "UNSIGNED-PAYLOAD")
    ∧ "UNSIGNED-PAYLOAD" ≠ buff2hex (toyCrypto.sha256B (strBytes "hello"))
    ∧ contentHashOf (certify toyCrypto cfgEx "20240101T000000Z" []
        ⟨"PUT", urlEx, [], some .other⟩) ≠ none := by
  exact ⟨by decide, by decide, by decide⟩

/-- Witness for C1: a concrete call without a caller content-hash header
satisfies the amended statement. -/
theorem claim_C1_witness :
    hHas [] "X-Amz-Content-Sha256" = false ∧
    ∃ req : SignedReq,
      certify toyCrypto cfgEx "20240101T000000Z" []
          ⟨"PUT", urlEx, [], some (.str "hello")⟩ =
        .ok (req,
          (getSigningKey toyCrypto cfgEx.secretKey
            (strTakeChars "20240101T000000Z" 8) cfgEx.region []).cache,
          (getSigningKey toyCrypto cfgEx.secretKey
            (strTakeChars "20240101T000000Z" 8) cfgEx.region []).derivs)
      ∧ hGet req.headers "X-Amz-Content-Sha256" = some "UNSIGNED-PAYLOAD" :=
  ⟨rfl, claim_C1 toyCrypto cfgEx "20240101T000000Z" [] "PUT" urlEx []
    (some (.str "hello")) rfl⟩

/-- Strings of ASCII characters, as every UTC date stamp is. -/
def asciiOnly (s : String) : Bool := s.data.all (fun c => c.toNat < 128)

/-- UTF-8 encoding of an ASCII character list is the code point list. -/
theorem foldr_utf8_ascii (l : List Char) (h : ∀ c ∈ l, c.toNat < 128) :
    l.foldr (fun c acc => utf8Bytes c ++ acc) [] = l.map Char.toNat := by
  induction l with
  | nil => rfl
  | cons c t ih =>
    rw [List.foldr_cons, ih (fun x hx => h x (List.mem_cons_of_mem _ hx))]
    have hc : utf8Bytes c = [c.toNat] := by
      simp only [utf8Bytes]
      rw [if_pos (h c (List.mem_cons_self _ _))]
    rw [hc]
    rfl

/-- UTF-8 bytes of an ASCII string are its code points. -/
theorem strBytes_ascii (s : String) (h : asciiOnly s = true) :
    strBytes s = s.data.map Char.toNat := by
  unfold strBytes
  exact foldr_utf8_ascii s.data (by simpa [asciiOnly, List.all_eq_true] using h)

/-- Distinct ASCII strings have distinct UTF-8 encodings. -/
theorem strBytes_ne_of_ascii (d1 d2 : String) (h1 : asciiOnly d1 = true)
    (h2 : asciiOnly d2 = true) (hne : d1 ≠ d2) : strBytes d1 ≠ strBytes d2 := by
  intro hEq
  rw [strBytes_ascii d1 h1, strBytes_ascii d2 h2] at hEq
  have hinj : Function.Injective Char.toNat := by
    intro a b hab
    have := congrArg Char.ofNat hab
    rwa [Char.ofNat_toNat, Char.ofNat_toNat] at this
  exact hne (String.ext (List.map_injective_iff.mpr hinj hEq))

/-- Derived signing keys of distinct ASCII date stamps differ for any
collision-free HMAC. -/
theorem deriveKey_ne (c : Crypto) (s r d1 d2 : String)
    (hinj1 : ∀ k, Function.Injective (c.hmacB k))
    (hinj2 : ∀ m, Function.Injective (fun k => c.hmacB k m))
    (ha1 : asciiOnly d1 = true) (ha2 : asciiOnly d2 = true) (hne : d1 ≠ d2) :
    deriveKey c s d1 r ≠ deriveKey c s d2 r := by
  intro hEq
  unfold deriveKey createHMAC at hEq
  have e1 := hinj2 _ hEq
  have e2 := hinj2 _ e1
  have e3 := hinj2 _ e2
  exact strBytes_ne_of_ascii d1 d2 ha1 ha2 hne (hinj1 _ e3)

/-- A second certify call with the same timestamp, headers and input on the
cache left by a first call returns the identical signed request, leaves the
cache unchanged and performs zero derivations. -/
theorem certifyAfterHost_stable (c : Crypto) (cfg : CertConfig) (dt : String)
    (cache : SignCache) (m : String) (url : UrlT) (h1 : HeadersT)
    (body : Option BodyVal) (req : SignedReq) (c1 : SignCache) (d : Nat)
    (h : certifyAfterHost c cfg dt cache m url h1 body = .ok (req, c1, d)) :
    certifyAfterHost c cfg dt c1 m url h1 body = .ok (req, c1, 0) := by
  simp only [certifyAfterHost] at h ⊢
  cases hs : signedReqFor c cfg dt
      (getSigningKey c cfg.secretKey (strTakeChars dt 8) cfg.region cache).key
      m url h1 body with
  | error e =>
    rw [hs] at h
    simp [Except.map] at h
  | ok r =>
    rw [hs] at h
    simp only [Except.map, Except.ok.injEq, Prod.mk.injEq] at h
    obtain ⟨hr, hc, hd⟩ := h
    subst hr hc hd
    rw [getSigningKey_idem]
    simp [hs, Except.map]

/-- C2: the derived signing key is the four-step HMAC chain over the
AWS4-prefixed secret, date stamp, region, service and terminator; a repeated
lookup on the cache of a previous lookup hits with zero derivations; two
certify calls with a fixed timestamp produce the identical signed request;
and distinct UTC date stamps derive distinct keys for any collision-free
HMAC. -/
theorem claim_C2 (c : Crypto) (cfg : CertConfig) (dt d1 d2 : String)
    (cache : SignCache) (inp : CertInput)
    (hmiss : mapGet cache (cacheKeyFor cfg.secretKey d1 cfg.region) = none)
    (hinj1 : ∀ k, Function.Injective (c.hmacB k))
    (hinj2 : ∀ m, Function.Injective (fun k => c.hmacB k m))
    (ha1 : asciiOnly d1 = true) (ha2 : asciiOnly d2 = true) (hne : d1 ≠ d2) :
    (getSigningKey c cfg.secretKey d1 cfg.region cache).key =
        deriveKey c cfg.secretKey d1 cfg.region
    ∧ (getSigningKey c cfg.secretKey d1 cfg.region cache).derivs = 4
    ∧ (∀ cache2 : SignCache,
        getSigningKey c cfg.secretKey d1 cfg.region
            (getSigningKey c cfg.secretKey d1 cfg.region cache2).cache =
          ⟨(getSigningKey c cfg.secretKey d1 cfg.region cache2).key,
           (getSigningKey c cfg.secretKey d1 cfg.region cache2).cache, 0⟩)
    ∧ (∀ (req : SignedReq) (c1 : SignCache) (d : Nat),
        certify c cfg dt cache inp = .ok (req, c1, d) →
        certify c cfg dt c1 inp = .ok (req, c1, 0))
    ∧ deriveKey c cfg.secretKey d1 cfg.region ≠
        deriveKey c cfg.secretKey d2 cfg.region := by
  refine ⟨?_, ?_,
    fun cache2 => getSigningKey_idem c cfg.secretKey d1 cfg.region cache2,
    fun req c1 d h => certifyAfterHost_stable c cfg dt cache inp.method inp.url
      (hDelete inp.baseHeaders "Host") inp.body req c1 d h,
    deriveKey_ne c cfg.secretKey cfg.region d1 d2 hinj1 hinj2 ha1 ha2 hne⟩
  · rw [getSigningKey_miss c cfg.secretKey d1 cfg.region cache hmiss]
  · rw [getSigningKey_miss c cfg.secretKey d1 cfg.region cache hmiss]

/-- The toy HMAC is injective in its message. -/
theorem toyCrypto_inj1 : ∀ k, Function.Injective (toyCrypto.hmacB k) := by
  intro k x y h
  simp only [toyCrypto, List.cons.injEq] at h
  exact List.append_cancel_left h.2

/-- The toy HMAC is injective in its key. -/
theorem toyCrypto_inj2 : ∀ m, Function.Injective (fun k => toyCrypto.hmacB k m) := by
  intro m x y h
  simp only [toyCrypto, List.cons.injEq] at h
  exact (List.append_inj h.2 h.1).1

/-- Witness for C2: the toy primitives at concrete credentials and two
concrete date stamps. -/
theorem claim_C2_witness :
    (getSigningKey toyCrypto cfgEx.secretKey "20240101" cfgEx.region []).key =
        deriveKey toyCrypto cfgEx.secretKey "20240101" cfgEx.region
    ∧ deriveKey toyCrypto cfgEx.secretKey "20240101" cfgEx.region ≠
        deriveKey toyCrypto cfgEx.secretKey "20240102" cfgEx.region := by
  have h := claim_C2 toyCrypto cfgEx "20240101T000000Z" "20240101" "20240102" []
    ⟨"GET", urlEx, [], none⟩ rfl toyCrypto_inj1 toyCrypto_inj2
    (by decide) (by decide) (by decide)
  exact ⟨h.1, h.2.2.2.2⟩

/-- C6: the computed signature ignores any caller-supplied Host header:
signing runs whose header sets agree after deleting Host produce identical
signed requests, and setting any Host value is the same as deleting the
header, because the canonical host value is re-derived from the URL. -/
theorem claim_C6 (c : Crypto) (cfg : CertConfig) (dt : String)
    (cache : SignCache) (m : String) (url : UrlT) (body : Option BodyVal) :
    (∀ b1 b2 : HeadersT, hDelete b1 "Host" = hDelete b2 "Host" →
        certify c cfg dt cache ⟨m, url, b1, body⟩ =
          certify c cfg dt cache ⟨m, url, b2, body⟩)
    ∧ (∀ (b : HeadersT) (v : String),
        certify c cfg dt cache ⟨m, url, hSet b "Host" v, body⟩ =
          certify c cfg dt cache ⟨m, url, hDelete b "Host", body⟩) := by
  constructor
  · intro b1 b2 h
    simp only [certify]
    rw [h]
  · intro b v
    simp only [certify]
    rw [hDelete_hSet_same, hDelete_idem]

/-- Witness for C6: a concrete caller-supplied Host header changes nothing
against the run without it. -/
theorem claim_C6_witness :
    certify toyCrypto cfgEx "20240101T000000Z" []
        ⟨"GET", urlEx, [("host", "evil.example")], none⟩ =
      certify toyCrypto cfgEx "20240101T000000Z" []
        ⟨"GET", urlEx, [], none⟩ :=
  (claim_C6 toyCrypto cfgEx "20240101T000000Z" [] "GET" urlEx none).1
    [("host", "evil.example")] [] (by decide)

/-- The character list order is irreflexive. -/
theorem listLt_irrefl (x : List Char) : listLt x x = false := by
  induction x with
  | nil => rfl
  | cons a as ih =>
    simp only [listLt]
    rw [if_neg (lt_irrefl a), if_neg (lt_irrefl a)]
    exact ih

/-- The character list order is transitive. -/
theorem listLt_trans (x : List Char) :
    ∀ y z, listLt x y = true → listLt y z = true → listLt x z = true := by
  induction x with
  | nil =>
    intro y z h1 h2
    cases y with
    | nil => cases h1
    | cons b bs =>
      cases z with
      | nil => cases h2
      | cons c cs => rfl
  | cons a as ih =>
    intro y z h1 h2
    cases y with
    | nil => cases h1
    | cons b bs =>
      cases z with
      | nil => cases h2
      | cons c cs =>
        simp only [listLt] at h1 h2 ⊢
        rcases lt_trichotomy a b with hab | hab | hab
        · rcases lt_trichotomy b c with hbc | hbc | hbc
          · rw [if_pos (lt_trans hab hbc)]
          · subst hbc
            rw [if_pos hab]
          · rw [if_neg (asymm hbc), if_pos hbc] at h2
            cases h2
        · subst hab
          rw [if_neg (lt_irrefl a), if_neg (lt_irrefl a)] at h1
          rcases lt_trichotomy a c with hac | hac | hac
          · rw [if_pos hac]
          · subst hac
            rw [if_neg (lt_irrefl a), if_neg (lt_irrefl a)] at h2 ⊢
            exact ih bs cs h1 h2
          · rw [if_neg (asymm hac), if_pos hac] at h2
            cases h2
        · rw [if_neg (asymm hab), if_pos hab] at h1
          cases h1

/-- Two character lists neither of which precedes the other are equal. -/
theorem listLt_conn (x : List Char) :
    ∀ y, listLt x y = false → listLt y x = false → x = y := by
  induction x with
  | nil =>
    intro y h1 _
    cases y with
    | nil => rfl
    | cons b bs => cases h1
  | cons a as ih =>
    intro y h1 h2
    cases y with
    | nil => cases h2
    | cons b bs =>
      simp only [listLt] at h1 h2
      rcases lt_trichotomy a b with hab | hab | hab
      · rw [if_pos hab] at h1
        cases h1
      · subst hab
        rw [if_neg (lt_irrefl a), if_neg (lt_irrefl a)] at h1 h2
        rw [ih bs h1 h2]
      · rw [if_pos hab] at h2
        cases h2

/-- String order irreflexivity. -/
theorem strLt_irrefl (x : String) : strLtB x x = false := listLt_irrefl x.data

/-- String order transitivity. -/
theorem strLt_trans (x y z : String) (h1 : strLtB x y = true)
    (h2 : strLtB y z = true) : strLtB x z = true :=
  listLt_trans x.data y.data z.data h1 h2

/-- Two strings neither of which precedes the other are equal. -/
theorem strLt_conn (x y : String) (h1 : strLtB x y = false)
    (h2 : strLtB y x = false) : x = y :=
  String.ext (listLt_conn x.data y.data h1 h2)

/-- The string order is asymmetric. -/
theorem strLt_asymm (x y : String) (h : strLtB x y = true) : strLtB y x = false := by
  cases h2 : strLtB y x with
  | false => rfl
  | true =>
    have := strLt_trans x y x h h2
    rw [strLt_irrefl] at this
    cases this

/-- Characterization of a positive comparator verdict: key strictly below, or
equal keys and value below or equal. -/
theorem qle_cases (a b : String × String) (h : qle a b = true) :
    strLtB a.1 b.1 = true ∨
      (a.1 = b.1 ∧ (strLtB a.2 b.2 = true ∨ a.2 = b.2)) := by
  unfold qle at h
  by_cases k1 : strLtB a.1 b.1 = true
  · exact Or.inl k1
  · rw [if_neg k1] at h
    by_cases k2 : strLtB b.1 a.1 = true
    · rw [if_pos k2] at h
      cases h
    · rw [if_neg k2] at h
      have hk := strLt_conn a.1 b.1 (by simpa using k1) (by simpa using k2)
      by_cases k3 : strLtB a.2 b.2 = true
      · exact Or.inr ⟨hk, Or.inl k3⟩
      · rw [if_neg k3] at h
        by_cases k4 : strLtB b.2 a.2 = true
        · rw [if_pos k4] at h
          cases h
        · exact Or.inr ⟨hk,
            Or.inr (strLt_conn a.2 b.2 (by simpa using k3) (by simpa using k4))⟩

/-- Positive comparator verdict from the characterization. -/
theorem qle_intro (a b : String × String)
    (h : strLtB a.1 b.1 = true ∨
      (a.1 = b.1 ∧ (strLtB a.2 b.2 = true ∨ a.2 = b.2))) : qle a b = true := by
  unfold qle
  rcases h with h | ⟨hk, hv⟩
  · rw [if_pos h]
  · rw [hk, if_neg (by rw [strLt_irrefl]; exact Bool.false_ne_true),
      if_neg (by rw [strLt_irrefl]; exact Bool.false_ne_true)]
    rcases hv with hv | hv
    · rw [if_pos hv]
    · rw [hv, if_neg (by rw [strLt_irrefl]; exact Bool.false_ne_true),
        if_neg (by rw [strLt_irrefl]; exact Bool.false_ne_true)]

/-- The comparator keep-order relation is transitive. -/
theorem qle_trans (a b c : String × String) (h1 : qle a b = true)
    (h2 : qle b c = true) : qle a c = true := by
  apply qle_intro
  rcases qle_cases a b h1 with hk1 | ⟨he1, hv1⟩
  · rcases qle_cases b c h2 with hk2 | ⟨he2, hv2⟩
    · exact Or.inl (strLt_trans _ _ _ hk1 hk2)
    · exact Or.inl (he2 ▸ hk1)
  · rcases qle_cases b c h2 with hk2 | ⟨he2, hv2⟩
    · exact Or.inl (he1 ▸ hk2)
    · refine Or.inr ⟨he1.trans he2, ?_⟩
      rcases hv1 with hv1 | hv1
      · rcases hv2 with hv2 | hv2
        · exact Or.inl (strLt_trans _ _ _ hv1 hv2)
        · exact Or.inl (hv2 ▸ hv1)
      · rcases hv2 with hv2 | hv2
        · exact Or.inl (hv1 ▸ hv2)
        · exact Or.inr (hv1.trans hv2)

/-- The comparator keep-order relation is antisymmetric. -/
theorem qle_antisymm (a b : String × String) (h1 : qle a b = true)
    (h2 : qle b a = true) : a = b := by
  rcases qle_cases a b h1 with hk1 | ⟨he1, hv1⟩
  · rcases qle_cases b a h2 with hk2 | ⟨he2, hv2⟩
    · have := strLt_trans _ _ _ hk1 hk2
      rw [strLt_irrefl] at this
      cases this
    · rw [he2] at hk1
      rw [strLt_irrefl] at hk1
      cases hk1
  · rcases qle_cases b a h2 with hk2 | ⟨he2, hv2⟩
    · rw [he1] at hk2
      rw [strLt_irrefl] at hk2
      cases hk2
    · rcases hv1 with hv1 | hv1
      · rcases hv2 with hv2 | hv2
        · have := strLt_trans _ _ _ hv1 hv2
          rw [strLt_irrefl] at this
          cases this
        · rw [hv2] at hv1
          rw [strLt_irrefl] at hv1
          cases hv1
      · exact Prod.ext he1 hv1
    
/-- The comparator keep-order relation is total. -/
theorem qle_total (a b : String × String) : qle a b = true ∨ qle b a = true := by
  by_cases k1 : strLtB a.1 b.1 = true
  · exact Or.inl (qle_intro a b (Or.inl k1))
  · by_cases k2 : strLtB b.1 a.1 = true
    · exact Or.inr (qle_intro b a (Or.inl k2))
    · have hk := strLt_conn a.1 b.1 (by simpa using k1) (by simpa using k2)
      by_cases k3 : strLtB a.2 b.2 = true
      · exact Or.inl (qle_intro a b (Or.inr ⟨hk, Or.inl k3⟩))
      · by_cases k4 : strLtB b.2 a.2 = true
        · exact Or.inr (qle_intro b a (Or.inr ⟨hk.symm, Or.inl k4⟩))
        · exact Or.inl (qle_intro a b (Or.inr ⟨hk,
            Or.inr (strLt_conn a.2 b.2 (by simpa using k3) (by simpa using k4))⟩))

/-- With pairwise distinct names none of which was seen, the deduplicating
filter reduces to dropping empty names. -/
theorem qpFilter_eq_filter (l : List (String × String)) :
    ∀ seen, (l.map Prod.fst).Nodup → (∀ p ∈ l, p.1 ∉ seen) →
      qpFilter seen l = l.filter (fun p => p.1 ≠ "") := by
  induction l with
  | nil => intro seen _ _; rfl
  | cons p t ih =>
    intro seen hnd hseen
    obtain ⟨k, v⟩ := p
    simp only [List.map_cons, List.nodup_cons] at hnd
    simp only [qpFilter, List.filter_cons]
    by_cases hk : k = ""
    · rw [if_pos hk]
      have : (decide ((k, v).1 ≠ "")) = false := by simp [hk]
      rw [this]
      exact ih seen hnd.2 (fun q hq => hseen q (List.mem_cons_of_mem _ hq))
    · rw [if_neg hk]
      rw [if_neg (hseen (k, v) (List.mem_cons_self _ _))]
      have : (decide ((k, v).1 ≠ "")) = true := by simp [hk]
      rw [this]
      refine congrArg _ (ih (k :: seen) hnd.2 ?_)
      intro q hq hqmem
      rcases List.mem_cons.mp hqmem with he | hs
      · exact hnd.1 (he ▸ List.mem_map_of_mem Prod.fst hq)
      · exact hseen q (List.mem_cons_of_mem _ hq) hs

/-- A pair with an empty name is dropped wherever it stands. -/
theorem qpFilter_empty_name (v : String) (l1 l2 : List (String × String)) :
    ∀ seen, qpFilter seen (l1 ++ ("", v) :: l2) = qpFilter seen (l1 ++ l2) := by
  induction l1 with
  | nil => intro seen; simp [qpFilter]
  | cons p t ih =>
    intro seen
    obtain ⟨k, w⟩ := p
    simp only [List.cons_append, qpFilter]
    by_cases hk : k = ""
    · rw [if_pos hk, if_pos hk]
      exact ih seen
    · rw [if_neg hk, if_neg hk]
      by_cases hs : k ∈ seen
      · rw [if_pos hs, if_pos hs]
        exact ih seen
      · rw [if_neg hs, if_neg hs]
        exact congrArg _ (ih (k :: seen))

/-- A pair whose name already occurred earlier is dropped wherever it
stands. -/
theorem qpFilter_dup (k v : String) (l1 l2 : List (String × String))
    (hk : k ≠ "") :
    ∀ seen, (k ∈ seen ∨ k ∈ l1.map Prod.fst) →
      qpFilter seen (l1 ++ (k, v) :: l2) = qpFilter seen (l1 ++ l2) := by
  induction l1 with
  | nil =>
    intro seen hmem
    rcases hmem with hs | hm
    · simp only [List.nil_append, qpFilter]
      rw [if_neg hk, if_pos hs]
    · simp at hm
  | cons p t ih =>
    intro seen hmem
    obtain ⟨a, w⟩ := p
    simp only [List.cons_append, qpFilter]
    have hmem' : k ∈ seen ∨ k ∈ t.map Prod.fst ∨ k = a := by
      rcases hmem with hs | hm
      · exact Or.inl hs
      · rw [List.map_cons] at hm
        rcases List.mem_cons.mp hm with he | ht
        · exact Or.inr (Or.inr he)
        · exact Or.inr (Or.inl ht)
    by_cases ha : a = ""
    · rw [if_pos ha, if_pos ha]
      refine ih seen ?_
      rcases hmem' with hs | hm | he
      · exact Or.inl hs
      · exact Or.inr hm
      · exact absurd (he.trans ha) hk
    · rw [if_neg ha, if_neg ha]
      by_cases hs2 : a ∈ seen
      · rw [if_pos hs2, if_pos hs2]
        refine ih seen ?_
        rcases hmem' with hs | hm | he
        · exact Or.inl hs
        · exact Or.inr hm
        · exact Or.inl (he ▸ hs2)
      · rw [if_neg hs2, if_neg hs2]
        refine congrArg _ (ih (a :: seen) ?_)
        rcases hmem' with hs | hm | he
        · exact Or.inl (List.mem_cons_of_mem _ hs)
        · exact Or.inr hm
        · exact Or.inl (he ▸ List.mem_cons_self _ _)

/-- Reordering an input with pairwise distinct names leaves the canonical
query unchanged. -/
theorem canonicalQuery_perm (l1 l2 : List (String × String))
    (hperm : l1.Perm l2) (hnd : (l1.map Prod.fst).Nodup) :
    canonicalQuery l1 = canonicalQuery l2 := by
  haveI : IsTotal (String × String) (fun a b => qle a b = true) := ⟨qle_total⟩
  haveI : IsTrans (String × String) (fun a b => qle a b = true) := ⟨qle_trans⟩
  haveI : IsAntisymm (String × String) (fun a b => qle a b = true) := ⟨qle_antisymm⟩
  unfold canonicalQuery
  have hnd2 : (l2.map Prod.fst).Nodup := ((hperm.map Prod.fst).nodup_iff).mp hnd
  rw [qpFilter_eq_filter l1 [] hnd (by simp),
    qpFilter_eq_filter l2 [] hnd2 (by simp)]
  have hp : ((l1.filter (fun p => p.1 ≠ "")).map encodePair).Perm
      ((l2.filter (fun p => p.1 ≠ "")).map encodePair) :=
    ((hperm.filter _).map _)
  have heq : List.insertionSort (fun a b => qle a b = true)
      ((l1.filter (fun p => p.1 ≠ "")).map encodePair) =
      List.insertionSort (fun a b => qle a b = true)
      ((l2.filter (fun p => p.1 ≠ "")).map encodePair) :=
    List.eq_of_perm_of_sorted
      (((List.perm_insertionSort _ _).trans hp).trans
        (List.perm_insertionSort _ _).symm)
      (List.sorted_insertionSort _ _) (List.sorted_insertionSort _ _)
  rw [heq]

/-- C7: the canonical query string is invariant under reordering of inputs
with distinct names; empty names are dropped and only the first pair of a
duplicated name is kept wherever the duplicate stands; each pair is
percent-encoded with the RFC 3986 fix-up and the pairs are joined sorted by
key then value, as the concrete evaluations demonstrate. -/
theorem claim_C7 :
    (∀ l1 l2 : List (String × String), l1.Perm l2 →
        (l1.map Prod.fst).Nodup → canonicalQuery l1 = canonicalQuery l2)
    ∧ (∀ (v : String) (l1 l2 : List (String × String)),
        canonicalQuery (l1 ++ ("", v) :: l2) = canonicalQuery (l1 ++ l2))
    ∧ (∀ (k v : String) (l1 l2 : List (String × String)), k ≠ "" →
        k ∈ l1.map Prod.fst →
        canonicalQuery (l1 ++ (k, v) :: l2) = canonicalQuery (l1 ++ l2))
    ∧ canonicalQuery [("b", "2"), ("a", "1")] = "a=1&b=2"
    ∧ canonicalQuery [("a", "1"), ("b", "2")] = "a=1&b=2"
    ∧ canonicalQuery [("a b", "c*")] = "a%20b=c%2A" := by
  refine ⟨canonicalQuery_perm, ?_, ?_, by decide, by decide, by decide⟩
  · intro v l1 l2
    unfold canonicalQuery
    rw [qpFilter_empty_name v l1 l2 []]
  · intro k v l1 l2 hk hmem
    unfold canonicalQuery
    rw [qpFilter_dup k v l1 l2 hk [] (Or.inr hmem)]

/-- Witness for C7: the two-pair example reorders without changing the
canonical query. -/
theorem claim_C7_witness :
    [("b", "2"), ("a", "1")].Perm [("a", "1"), ("b", "2")] ∧
    (([("b", "2"), ("a", "1")] : List (String × String)).map Prod.fst).Nodup ∧
    canonicalQuery [("b", "2"), ("a", "1")] =
      canonicalQuery [("a", "1"), ("b", "2")] :=
  ⟨by decide, by decide, claim_C7.1 _ _ (by decide) (by decide)⟩
